import Mathlib

/-!
Shallow embedding of the MiniDistributedQueueSystem replication engine
(src/core/{clock,event,log,queue,buildcore}) and proofs about the claims
of its specification.

Vector clocks (`HashMap<String, u64>` in the source) are modelled as
association lists with distinct keys; machine counters are modelled as
`Nat` (they are monotonic counters incremented by one, far from the u64
ceiling), while the event-weight arithmetic, which the source explicitly
saturates, is modelled with explicit saturation at `2^64 - 1`.
-/

/-- A vector clock: association list from node id to counter
(`HashMap<String, u64>` in the source). -/
abbrev Clock := List (String × Nat)

/-- Map lookup with the source's `unwrap_or(0)` default: the value of the
first entry with the given key, or 0. -/
def cget (c : Clock) (k : String) : Nat :=
  match c with
  | [] => 0
  | (k', v) :: rest => if k' = k then v else cget rest k

/-- The key set of a clock. -/
def keysOf (c : Clock) : List String :=
  c.map Prod.fst

/-- Source `VectorClock::tick`: increment the local counter by one
(no-op on a clock that lacks the local key, which never happens for
constructed clocks). -/
def tickC (c : Clock) (nid : String) : Clock :=
  c.map (fun p => if p.1 = nid then (p.1, p.2 + 1) else p)

/-- Source `VectorClock::update`: first increment the local counter (if present),
then raise every locally known counter to the remote value if smaller.
Remote keys unknown to the local clock are ignored. -/
def updateC (c : Clock) (nid : String) (remote : Clock) : Clock :=
  c.map (fun p =>
    (p.1, max (if p.1 = nid then p.2 + 1 else p.2) (cget remote p.1)))

/-- Source `VectorClock::add_node`: insert the key with counter 0 if unknown. -/
def addNodeC (c : Clock) (id : String) : Clock :=
  if id ∈ keysOf c then c else c ++ [(id, 0)]

/-- Source `VectorClock::happened_before`: every own component is at most the
other's (missing treated as 0), and either some own component is strictly
smaller or the other clock mentions an unknown node with a positive value. -/
def happenedBefore (c : Clock) (other : Clock) : Bool :=
  (c.all fun p => decide (p.2 ≤ cget other p.1)) &&
  ((c.any fun p => decide (p.2 < cget other p.1)) ||
   (other.any fun p => !(keysOf c).contains p.1 && decide (0 < p.2)))

/-- Source `VectorClock::new`: counters at 0 for every listed node, the local node
included. -/
def newClockWithNodes (nid : String) (nodes : List String) : Clock :=
  let m := nodes.map (fun n => (n, 0))
  if nid ∈ nodes then m else m ++ [(nid, 0)]

/-- Source `VectorClock::new_single`: just the local node at 0. -/
def newClockSingle (nid : String) : Clock :=
  [(nid, 0)]

/-- Operation tag of an event (`EventOp` in the source). -/
inductive EventOp where
  | Enqueue : EventOp
  | Dequeue : EventOp
deriving DecidableEq

/-- An immutable replication event (`Event<T>` in the source). -/
structure Event (T : Type) where
  global_id : Nat
  origin_node : String
  op : EventOp
  item : Option T
  clock : Clock
deriving DecidableEq

/-- Sum of the code-point values of a node identifier
(`node.chars().map(|c| c as u64).sum()`). -/
def nodeHash (node : String) : Nat :=
  (node.toList.map (fun c => c.toNat)).sum

/-- The u64 ceiling used by the source's saturating arithmetic. -/
def U64MAX : Nat := 18446744073709551615

/-- Source `u64::saturating_add`. -/
def satAdd (a b : Nat) : Nat := min (a + b) U64MAX

/-- Source `u64::saturating_mul`. -/
def satMul (a b : Nat) : Nat := min (a * b) U64MAX

/-- Source `Event::total_order_value`: saturating sum over the clock's entries of
`time * 1000 + (nodeHash % 1000)`, all with saturating semantics. -/
def totalOrderValue {T : Type} (e : Event T) : Nat :=
  e.clock.foldl
    (fun total p => satAdd total (satAdd (satMul p.2 1000) (nodeHash p.1 % 1000)))
    0

/-- Source `Event::origin_timestamp`: the clock's entry for the origin node
(absent treated as 0). -/
def originTimestamp {T : Type} (e : Event T) : Nat :=
  cget e.clock e.origin_node

/-- Lexicographic comparison of character lists by code point, the order
`Ord for String` (and Rust's `String::cmp`) realizes. -/
def strCmpL : List Char → List Char → Ordering
  | [], [] => Ordering.eq
  | [], _ :: _ => Ordering.lt
  | _ :: _, [] => Ordering.gt
  | a :: as, b :: bs =>
    match compare a.toNat b.toNat with
    | Ordering.eq => strCmpL as bs
    | o => o

/-- String comparison via `strCmpL` on the underlying characters. -/
def strCmp (a b : String) : Ordering :=
  strCmpL a.toList b.toList

/-- Source `Ord for Event`: primary the total-order weight, secondary the origin
timestamp, tie-break the origin node id. -/
def evCmp {T : Type} (a b : Event T) : Ordering :=
  match compare (totalOrderValue a) (totalOrderValue b) with
  | Ordering.eq =>
    match compare (originTimestamp a) (originTimestamp b) with
    | Ordering.eq => strCmp a.origin_node b.origin_node
    | o => o
  | o => o

/-- Source `le` induced by `evCmp`, used to order pops from the reorder buffer. -/
def evLE {T : Type} (a b : Event T) : Bool :=
  match evCmp a b with
  | Ordering.gt => false
  | _ => true

/-- Source `PartialEq for HashMap`: same length and every own entry present with
the same value in the other map. -/
def clockEqHM (a b : Clock) : Bool :=
  (a.length == b.length) &&
    a.all (fun p => (keysOf b).contains p.1 && (cget b p.1 == p.2))

/-- Source `PartialEq for Event`: equality on (clock, origin_node) only. -/
def evEq {T : Type} (a b : Event T) : Bool :=
  clockEqHM a.clock b.clock && (a.origin_node == b.origin_node)

/-- Log-entry state (`State` in the source). -/
inductive EntryState where
  | Pending : EntryState
  | Committed : EntryState
  | Delivered : EntryState
  | Failed : EntryState
deriving DecidableEq

/-- A log entry (`LogEntry<T>` in the source). -/
structure LogEntry (T : Type) where
  local_log_id : Nat
  local_node : String
  op : String
  item : Option T
  state : EntryState
  clock : Clock
  event_global_id : Option Nat
  event : Option (Event T)
deriving DecidableEq

/-- The process-wide monotonic counters: `EVENT_COUNTER` (events, starts
at 1) and `LOG_ID_COUNTER` (log entries, starts at 1). -/
structure Globals where
  eventCtr : Nat
  logCtr : Nat
deriving DecidableEq

/-- Initial values of the process-wide counters. -/
def gInit : Globals := ⟨1, 1⟩

/-- One replication engine (`DistributedQueueSystem<T>` in the source).
The queue is the FIFO list, the applied-set is flattened to (origin,
global_id) pairs, and the reorder buffer is the multiset of parked events. -/
structure DQS (T : Type) where
  node_id : String
  queue : List T
  log : List (LogEntry T)
  clock : Clock
  applied : List (String × Nat)
  buffer : List (Event T)
deriving DecidableEq

/-- Source `DistributedQueueSystem::new`: single-node clock. -/
def DQS.mkSingle (T : Type) (nid : String) : DQS T :=
  ⟨nid, [], [], newClockSingle nid, [], []⟩

/-- Source `DistributedQueueSystem::new_with_nodes`: clock pre-populated with all
peers (and the local node) at 0. -/
def DQS.mkWithNodes (T : Type) (nid : String) (nodes : List String) : DQS T :=
  ⟨nid, [], [], newClockWithNodes nid nodes, [], []⟩

/-- Source `DistributedQueueSystem::enqueue`: tick-and-snapshot the clock,
synthesize the Enqueue event, push the item, log Committed; returns
(event, state, counters). -/
def enqueueOp {T : Type} (g : Globals) (s : DQS T) (item : T) :
    Event T × DQS T × Globals :=
  let snap := tickC s.clock s.node_id
  let ev : Event T := ⟨g.eventCtr, s.node_id, EventOp.Enqueue, some item, snap⟩
  let en : LogEntry T :=
    ⟨g.logCtr, s.node_id, "enqueue", some item, EntryState.Committed, snap,
      some ev.global_id, some ev⟩
  (ev,
   { s with clock := snap, queue := s.queue ++ [item], log := s.log ++ [en] },
   ⟨g.eventCtr + 1, g.logCtr + 1⟩)

/-- Source `DistributedQueueSystem::dequeue`: tick-and-snapshot, pop the head
(possibly absent), synthesize the Dequeue event, log Delivered. -/
def dequeueOp {T : Type} (g : Globals) (s : DQS T) :
    (Option T × Event T) × DQS T × Globals :=
  let snap := tickC s.clock s.node_id
  let item := s.queue.head?
  let ev : Event T := ⟨g.eventCtr, s.node_id, EventOp.Dequeue, item, snap⟩
  let en : LogEntry T :=
    ⟨g.logCtr, s.node_id, "dequeue", item, EntryState.Delivered, snap,
      some ev.global_id, some ev⟩
  ((item, ev),
   { s with clock := snap, queue := s.queue.tail, log := s.log ++ [en] },
   ⟨g.eventCtr + 1, g.logCtr + 1⟩)

/-- Source `DistributedQueueSystem::can_apply_event`: the causality gate — the
event's origin counter must be exactly one past the local counter for the
origin (both default 0). -/
def canApplyEvent {T : Type} (clk : Clock) (e : Event T) : Bool :=
  cget e.clock e.origin_node == cget clk e.origin_node + 1

/-- Source `DistributedQueueSystem::apply_event_immediately`: record in the
applied-set, then mutate the queue and append the log entry (an Enqueue
event without an item changes nothing beyond the applied-set; the log
entry records the event's clock). -/
def applyEventImmediately {T : Type} (g : Globals) (s : DQS T) (e : Event T) :
    DQS T × Globals :=
  let s0 := { s with applied := (e.origin_node, e.global_id) :: s.applied }
  match e.op with
  | EventOp.Enqueue =>
    match e.item with
    | some item =>
      let en : LogEntry T :=
        ⟨g.logCtr, s.node_id, "enqueue", some item, EntryState.Committed,
          e.clock, some e.global_id, some e⟩
      ({ s0 with queue := s0.queue ++ [item], log := s0.log ++ [en] },
       ⟨g.eventCtr, g.logCtr + 1⟩)
    | none => (s0, g)
  | EventOp.Dequeue =>
    let item := s0.queue.head?
    let en : LogEntry T :=
      ⟨g.logCtr, s.node_id, "dequeue", item, EntryState.Delivered,
        e.clock, some e.global_id, some e⟩
    ({ s0 with queue := s0.queue.tail, log := s0.log ++ [en] },
     ⟨g.eventCtr, g.logCtr + 1⟩)

/-- Apply a list of events in order via `applyEventImmediately`. -/
def applyAll {T : Type} (g : Globals) (s : DQS T) :
    List (Event T) → DQS T × Globals
  | [] => (s, g)
  | e :: rest =>
    let r := applyEventImmediately g s e
    applyAll r.2 r.1 rest

/-- Insert into a list sorted ascending by `le`. -/
def insertAsc {T : Type} (le : Event T → Event T → Bool) (e : Event T) :
    List (Event T) → List (Event T)
  | [] => [e]
  | x :: xs => if le e x then e :: x :: xs else x :: insertAsc le e xs

/-- Sort ascending by `le`; models the ascending pop order of the
`BinaryHeap<Reverse<Event>>` reorder buffer. -/
def sortAsc {T : Type} (le : Event T → Event T → Bool) :
    List (Event T) → List (Event T)
  | [] => []
  | x :: xs => insertAsc le x (sortAsc le xs)

/-- Source `DistributedQueueSystem::process_buffered_events`: pop everything,
partition by the gate against the current clock (the clock does not change
during the pass), keep the inapplicable events, apply the applicable ones
in ascending event order. -/
def processBufferedEvents {T : Type} (g : Globals) (s : DQS T) :
    DQS T × Globals :=
  let toApply := sortAsc evLE (s.buffer.filter (fun e => canApplyEvent s.clock e))
  let remaining := s.buffer.filter (fun e => !(canApplyEvent s.clock e))
  applyAll g { s with buffer := remaining } toApply

/-- Source `DistributedQueueSystem::apply_remote_event`: merge the event's clock
(always), drop duplicates, then either apply immediately and drain, or
park the event in the reorder buffer. -/
def applyRemoteEvent {T : Type} (g : Globals) (s : DQS T) (e : Event T) :
    Bool × DQS T × Globals :=
  let clk := updateC s.clock s.node_id e.clock
  let s1 := { s with clock := clk }
  if (e.origin_node, e.global_id) ∈ s.applied then (false, s1, g)
  else if canApplyEvent clk e then
    let r1 := applyEventImmediately g s1 e
    let r2 := processBufferedEvents r1.2 r1.1
    (true, r2.1, r2.2)
  else (false, { s1 with buffer := s1.buffer ++ [e] }, g)

/-- Source `DistributedQueueSystem::queue_state`: (length, emptiness). -/
def queueState {T : Type} (s : DQS T) : Nat × Bool :=
  (s.queue.length, s.queue.isEmpty)

/-- Source `DistributedQueueSystem::pending_events_count`: reorder-buffer size. -/
def pendingEventsCount {T : Type} (s : DQS T) : Nat :=
  s.buffer.length

/-- S1 node n1 with peer n2. -/
def c1n1 : DQS String := DQS.mkWithNodes String "n1" ["n2"]

/-- S1 node n2 with peer n1. -/
def c1n2 : DQS String := DQS.mkWithNodes String "n2" ["n1"]

/-- S1: n1 enqueues "x", producing E1. -/
def c1run : Event String × DQS String × Globals := enqueueOp gInit c1n1 "x"

/-- S1 event E1. -/
def c1e1 : Event String := c1run.1

/-- S1: n2 applies E1. -/
def c1res : Bool × DQS String × Globals := applyRemoteEvent c1run.2.2 c1n2 c1e1

/-- S3 node n1 (single-node clock, so E1's clock is exactly defn n1 at 1). -/
def c2n1 : DQS String := DQS.mkSingle String "n1"

/-- S3 node n2. -/
def c2n2 : DQS String := DQS.mkSingle String "n2"

/-- S3: n1 enqueues "a" (event E1, clock n1 at 1). -/
def c2r1 : Event String × DQS String × Globals := enqueueOp gInit c2n1 "a"

/-- S3: n1 enqueues "b" (event E2, clock n1 at 2). -/
def c2r2 : Event String × DQS String × Globals := enqueueOp c2r1.2.2 c2r1.2.1 "b"

/-- S3 event E1. -/
def c2e1 : Event String := c2r1.1

/-- S3 event E2. -/
def c2e2 : Event String := c2r2.1

/-- S3: n2 receives E2 first. -/
def c2a1 : Bool × DQS String × Globals := applyRemoteEvent c2r2.2.2 c2n2 c2e2

/-- S3: n2 then receives E1. -/
def c2a2 : Bool × DQS String × Globals := applyRemoteEvent c2a1.2.2 c2a1.2.1 c2e1

/-- Duplicate-suppression scenario, as in the repository's own test:
node1 and node2 with single-node clocks. -/
def c3n1 : DQS String := DQS.mkSingle String "node1"

/-- Duplicate-suppression scenario: node2. -/
def c3n2 : DQS String := DQS.mkSingle String "node2"

/-- node1 enqueues "item1". -/
def c3r : Event String × DQS String × Globals := enqueueOp gInit c3n1 "item1"

/-- The event to be applied twice. -/
def c3e : Event String := c3r.1

/-- First application (accepted). -/
def c3a1 : Bool × DQS String × Globals := applyRemoteEvent c3r.2.2 c3n2 c3e

/-- Second application of the same event (duplicate). -/
def c3a2 : Bool × DQS String × Globals := applyRemoteEvent c3a1.2.2 c3a1.2.1 c3e

/-- A single local enqueue on a fresh engine. -/
def c4r : Event String × DQS String × Globals :=
  enqueueOp gInit (DQS.mkSingle String "n1") "x"

/-- Two events with different clocks of equal weight, equal origin
timestamp and equal origin node. -/
def c6ea : Event Nat := ⟨1, "n1", EventOp.Enqueue, some 0, [("n1", 1), ("n2", 2), ("n3", 3)]⟩

/-- Companion to `c6ea`: same weight, same origin entry, different clock. -/
def c6eb : Event Nat := ⟨2, "n1", EventOp.Enqueue, some 0, [("n1", 1), ("n2", 3), ("n3", 2)]⟩

/-- A fresh engine holding one locally enqueued item, used to witness the
log-append properties. -/
def c5base : Event String × DQS String × Globals :=
  enqueueOp gInit (DQS.mkSingle String "w1") "w"

/-- A well-formed remote event admissible at `c5base`'s state. -/
def c5e : Event String := ⟨9, "w2", EventOp.Enqueue, some "y", [("w2", 1)]⟩

/-- An engine with an empty queue for the remote-dequeue witness. -/
def c10s : DQS String := DQS.mkSingle String "n2"

/-- A remote Dequeue event carrying item "x", admissible at `c10s`. -/
def c10e : Event String := ⟨5, "n1", EventOp.Dequeue, some "x", [("n1", 1)]⟩

/-- Counter state for the remote-dequeue witness. -/
def c10g : Globals := ⟨6, 1⟩

/-- The remote-dequeue witness run. -/
def c10res : Bool × DQS String × Globals := applyRemoteEvent c10g c10s c10e

/-- The clock operations the engine and its callers can perform
(`tick`, `update`, `add_node`, `tick_snapshot`, `snapshot`). -/
inductive ClockOp where
  | tick : ClockOp
  | updateWith : Clock → ClockOp
  | addNode : String → ClockOp
  | tickSnapshot : ClockOp
  | snapshot : ClockOp

/-- Effect of a single clock operation on the clock of node `nid`
(`snapshot` reads without mutating; `tick_snapshot` mutates like `tick`). -/
def stepClock (nid : String) (c : Clock) : ClockOp → Clock
  | ClockOp.tick => tickC c nid
  | ClockOp.updateWith m => updateC c nid m
  | ClockOp.addNode i => addNodeC c i
  | ClockOp.tickSnapshot => tickC c nid
  | ClockOp.snapshot => c

/-- Run a sequence of clock operations. -/
def runClockOps (nid : String) (c : Clock) : List ClockOp → Clock
  | [] => c
  | op :: rest => runClockOps nid (stepClock nid c op) rest

/-- Invariant of the reorder buffer: every parked event is permanently
inapplicable — its origin counter is already covered by the local clock,
or its origin is unknown to the local clock (whose key set never changes)
and its origin time is not 1. It holds for every reachable engine state. -/
def BufStuck {T : Type} (s : DQS T) : Prop :=
  ∀ e ∈ s.buffer,
    (e.origin_node ∈ keysOf s.clock ∧
      cget e.clock e.origin_node ≤ cget s.clock e.origin_node) ∨
    (e.origin_node ∉ keysOf s.clock ∧ cget e.clock e.origin_node ≠ 1)

theorem keysOf_cons (p : String × Nat) (rest : Clock) :
    keysOf (p :: rest) = p.1 :: keysOf rest := rfl

theorem mem_keysOf_of_mem {c : Clock} {p : String × Nat} (h : p ∈ c) :
    p.1 ∈ keysOf c :=
  List.mem_map.mpr ⟨p, h, rfl⟩

theorem cget_eq_zero_of_not_mem {c : Clock} {k : String} (h : k ∉ keysOf c) :
    cget c k = 0 := by
  induction c with
  | nil => rfl
  | cons p rest ih =>
    rw [keysOf_cons, List.mem_cons, not_or] at h
    show (if p.1 = k then p.2 else cget rest k) = 0
    rw [if_neg (fun he => h.1 he.symm)]
    exact ih h.2

theorem mem_keysOf_of_cget_pos {c : Clock} {k : String} (h : 0 < cget c k) :
    k ∈ keysOf c := by
  by_contra hk
  rw [cget_eq_zero_of_not_mem hk] at h
  exact Nat.lt_irrefl 0 h

theorem cget_mem {c : Clock} {k : String} (h : k ∈ keysOf c) :
    (k, cget c k) ∈ c := by
  induction c with
  | nil => exact absurd h (by simp [keysOf])
  | cons p rest ih =>
    by_cases hk : p.1 = k
    · have hv : cget (p :: rest) k = p.2 := by
        show (if p.1 = k then p.2 else cget rest k) = p.2
        rw [if_pos hk]
      rw [hv]
      exact List.mem_cons.mpr (Or.inl (by rw [← hk]))
    · have hv : cget (p :: rest) k = cget rest k := by
        show (if p.1 = k then p.2 else cget rest k) = cget rest k
        rw [if_neg hk]
      rw [hv]
      rw [keysOf_cons, List.mem_cons] at h
      rcases h with h | h
      · exact absurd h.symm hk
      · exact List.mem_cons.mpr (Or.inr (ih h))

theorem cget_of_mem_nodup {c : Clock} {k : String} {v : Nat}
    (hnd : (keysOf c).Nodup) (hm : (k, v) ∈ c) : cget c k = v := by
  induction c with
  | nil => exact absurd hm (List.not_mem_nil _)
  | cons p rest ih =>
    rw [keysOf_cons, List.nodup_cons] at hnd
    rcases List.mem_cons.mp hm with h | h
    · rw [← h]
      show (if k = k then v else cget rest k) = v
      rw [if_pos rfl]
    · have hk : p.1 ≠ k := by
        intro he
        exact hnd.1 (he ▸ mem_keysOf_of_mem h)
      show (if p.1 = k then p.2 else cget rest k) = v
      rw [if_neg hk]
      exact ih hnd.2 h

theorem cget_cons (p : String × Nat) (rest : Clock) (k : String) :
    cget (p :: rest) k = if p.1 = k then p.2 else cget rest k := rfl

theorem tickC_cons (p : String × Nat) (rest : Clock) (nid : String) :
    tickC (p :: rest) nid =
      (if p.1 = nid then (p.1, p.2 + 1) else p) :: tickC rest nid := rfl

theorem updateC_cons (p : String × Nat) (rest : Clock) (nid : String) (m : Clock) :
    updateC (p :: rest) nid m =
      (p.1, max (if p.1 = nid then p.2 + 1 else p.2) (cget m p.1)) ::
        updateC rest nid m := rfl

theorem keysOf_tickC (c : Clock) (nid : String) :
    keysOf (tickC c nid) = keysOf c := by
  induction c with
  | nil => rfl
  | cons p rest ih =>
    rw [tickC_cons]
    by_cases h : p.1 = nid
    · rw [if_pos h, keysOf_cons, keysOf_cons, ih]
    · rw [if_neg h, keysOf_cons, keysOf_cons, ih]

theorem keysOf_updateC (c : Clock) (nid : String) (m : Clock) :
    keysOf (updateC c nid m) = keysOf c := by
  induction c with
  | nil => rfl
  | cons p rest ih =>
    rw [updateC_cons, keysOf_cons, keysOf_cons, ih]

theorem tickC_of_not_mem {c : Clock} {nid : String} (h : nid ∉ keysOf c) :
    tickC c nid = c := by
  induction c with
  | nil => rfl
  | cons p rest ih =>
    rw [keysOf_cons, List.mem_cons, not_or] at h
    rw [tickC_cons, if_neg (fun he => h.1 he.symm), ih h.2]

theorem cget_tickC_of_ne {c : Clock} {nid k : String} (h : k ≠ nid) :
    cget (tickC c nid) k = cget c k := by
  induction c with
  | nil => rfl
  | cons p rest ih =>
    rw [tickC_cons]
    by_cases hn : p.1 = nid
    · have hpk : p.1 ≠ k := fun he => h (by rw [← he]; exact hn)
      rw [if_pos hn, cget_cons, cget_cons, if_neg hpk, if_neg hpk, ih]
    · rw [if_neg hn, cget_cons, cget_cons]
      by_cases hpk : p.1 = k
      · rw [if_pos hpk, if_pos hpk]
      · rw [if_neg hpk, if_neg hpk, ih]

theorem cget_tickC_self {c : Clock} {nid : String} (h : nid ∈ keysOf c) :
    cget (tickC c nid) nid = cget c nid + 1 := by
  induction c with
  | nil => exact absurd h (by simp [keysOf])
  | cons p rest ih =>
    rw [tickC_cons]
    by_cases hn : p.1 = nid
    · rw [if_pos hn, cget_cons, cget_cons, if_pos hn, if_pos hn]
    · rw [if_neg hn, cget_cons, cget_cons, if_neg hn, if_neg hn]
      rw [keysOf_cons, List.mem_cons] at h
      rcases h with h | h
      · exact absurd h.symm hn
      · exact ih h

theorem cget_updateC_of_mem {c : Clock} {nid : String} {m : Clock} {k : String}
    (h : k ∈ keysOf c) :
    cget (updateC c nid m) k =
      max (if k = nid then cget c k + 1 else cget c k) (cget m k) := by
  induction c with
  | nil => exact absurd h (by simp [keysOf])
  | cons p rest ih =>
    rw [updateC_cons]
    by_cases hpk : p.1 = k
    · subst hpk
      rw [cget_cons, if_pos rfl, cget_cons, if_pos rfl]
    · rw [cget_cons, if_neg hpk, cget_cons, if_neg hpk]
      rw [keysOf_cons, List.mem_cons] at h
      rcases h with h | h
      · exact absurd h.symm hpk
      · exact ih h

theorem cget_updateC_of_not_mem {c : Clock} {nid : String} {m : Clock} {k : String}
    (h : k ∉ keysOf c) : cget (updateC c nid m) k = 0 :=
  cget_eq_zero_of_not_mem (by rw [keysOf_updateC]; exact h)

theorem cget_le_tickC (c : Clock) (nid k : String) :
    cget c k ≤ cget (tickC c nid) k := by
  by_cases h : k = nid
  · subst h
    by_cases hm : k ∈ keysOf c
    · rw [cget_tickC_self hm]; omega
    · rw [tickC_of_not_mem hm]
  · rw [cget_tickC_of_ne h]

theorem cget_le_updateC (c : Clock) (nid : String) (m : Clock) (k : String) :
    cget c k ≤ cget (updateC c nid m) k := by
  by_cases h : k ∈ keysOf c
  · rw [cget_updateC_of_mem h]
    by_cases hn : k = nid
    · rw [if_pos hn]; omega
    · rw [if_neg hn]; omega
  · rw [cget_updateC_of_not_mem h, cget_eq_zero_of_not_mem h]

theorem cget_remote_le_updateC (c : Clock) (nid : String) (m : Clock) (k : String)
    (h : k ∈ keysOf c) : cget m k ≤ cget (updateC c nid m) k := by
  rw [cget_updateC_of_mem h]
  omega

theorem cget_append (a b : Clock) (k : String) :
    cget (a ++ b) k = if k ∈ keysOf a then cget a k else cget b k := by
  induction a with
  | nil => simp [keysOf]
  | cons p rest ih =>
    rw [List.cons_append, cget_cons, cget_cons]
    by_cases hk : p.1 = k
    · rw [if_pos hk, if_pos hk, if_pos (by rw [keysOf_cons]; exact List.mem_cons.mpr (Or.inl hk.symm))]
    · rw [if_neg hk, if_neg hk, ih]
      by_cases hm : k ∈ keysOf rest
      · rw [if_pos hm, if_pos (by rw [keysOf_cons]; exact List.mem_cons.mpr (Or.inr hm))]
      · rw [if_neg hm, if_neg (by rw [keysOf_cons, List.mem_cons]; rintro (h | h); exacts [hk h.symm, hm h])]

theorem cget_le_addNodeC (c : Clock) (i k : String) :
    cget c k ≤ cget (addNodeC c i) k := by
  unfold addNodeC
  by_cases h : i ∈ keysOf c
  · rw [if_pos h]
  · rw [if_neg h, cget_append]
    by_cases hk : k ∈ keysOf c
    · rw [if_pos hk]
    · rw [if_neg hk, cget_eq_zero_of_not_mem hk]
      exact Nat.zero_le _

/-- Claim C1: spec scenario S1 with engines built by `new_with_nodes` —
the claim (and spec) say n2.apply_remote_event(E1) returns true with
queue_state (1, false) and a Committed log entry. The code merges E1's
clock into n2's clock before evaluating the gate, so the gate compares
e = 1 against the already-merged counter m = 1 and fails: the apply
returns false, buffers E1, and leaves the queue empty and the log empty. -/
theorem c1_gate_rejects_after_merge :
    cget c1e1.clock "n1" = 1 ∧ cget c1e1.clock "n2" = 0 ∧
    c1res.1 = false ∧ queueState c1res.2.1 = (0, true) ∧
    c1res.2.1.log = [] ∧ pendingEventsCount c1res.2.1 = 1 := by
  decide

/-- Claim C2: spec scenario S3 — n2 receives E2 {n1:2} then E1 {n1:1}.
The first apply is buffered as the claim says, and applying E1 succeeds,
but the drain cannot apply the buffered E2: n2's clock never acquires a
counter for n1 (merge ignores unknown nodes and applying an event does not
raise it), so the gate 2 == 0 + 1 stays false and E2 remains buffered.
Final state is queue (1, false), one pending event, and a log holding only
"a" — not the claimed (2, false) with "a" then "b". -/
theorem c2_drain_never_applies :
    cget c2e1.clock "n1" = 1 ∧ cget c2e2.clock "n1" = 2 ∧
    c2a1.1 = false ∧ pendingEventsCount c2a1.2.1 = 1 ∧
    c2a2.1 = true ∧
    queueState c2a2.2.1 = (1, false) ∧
    pendingEventsCount c2a2.2.1 = 1 ∧
    c2a2.2.1.log.map (fun en => en.item) = [some "a"] := by
  decide

/-- Claim C3, counterexample: re-applying an already-applied event returns
false and leaves the queue and the log unchanged, but the vector clock is
NOT unchanged — apply_remote_event merges (and hence ticks) the clock
before the duplicate check, so node2's local counter moves from 1 to 2. -/
theorem c3_clock_changes_on_duplicate :
    c3a1.1 = true ∧ c3a2.1 = false ∧
    c3a2.2.1.queue = c3a1.2.1.queue ∧
    c3a2.2.1.log = c3a1.2.1.log ∧
    c3a2.2.1.clock ≠ c3a1.2.1.clock ∧
    cget c3a1.2.1.clock "node2" = 1 ∧ cget c3a2.2.1.clock "node2" = 2 := by
  decide

/-- Claim C4, counterexample: a local enqueue never records the event's
global_id in the applied-set — after `enqueue` on a fresh engine the
applied-set is still empty even though the event has global_id 1. -/
theorem c4_applied_set_not_recorded :
    c4r.1.global_id = 1 ∧ c4r.2.1.applied = [] := by
  decide

/-- Claim C6, counterexample: the events `c6ea` and `c6eb` have different
clocks (n2 and n3 swapped between 2 and 3) yet identical weight 6480,
identical origin timestamp and identical origin node, so the order
compares them Equal while the heap-membership equality on
(clock, origin_node) rejects them: Equal is strictly coarser than that
equality, refuting the claimed "if and only if". -/
theorem c6_equal_without_eq :
    evCmp c6ea c6eb = Ordering.eq ∧ evEq c6ea c6eb = false := by
  decide

theorem happenedBefore_iff (a b : Clock) :
    happenedBefore a b = true ↔
      ((∀ p ∈ a, p.2 ≤ cget b p.1) ∧
       ((∃ p ∈ a, p.2 < cget b p.1) ∨
        (∃ p ∈ b, p.1 ∉ keysOf a ∧ 0 < p.2))) := by
  unfold happenedBefore
  simp [List.all_eq_true, List.any_eq_true, List.elem_iff]

/-- Claim C7: happened_before is a strict partial order on vector clocks —
transitive, and asymmetric. -/
theorem c7_happened_before_strict_order (a b c : Clock)
    (ha : (keysOf a).Nodup) (hb : (keysOf b).Nodup) (hc : (keysOf c).Nodup) :
    (happenedBefore a b = true → happenedBefore b c = true →
      happenedBefore a c = true) ∧
    (happenedBefore a b = true → happenedBefore b a = false) := by
  constructor
  · intro h1 h2
    rw [happenedBefore_iff] at h1 h2 ⊢
    obtain ⟨h1le, h1st⟩ := h1
    obtain ⟨h2le, h2st⟩ := h2
    constructor
    · intro p hp
      by_cases hkb : p.1 ∈ keysOf b
      · have s1 : p.2 ≤ cget b p.1 := h1le p hp
        have s2 : cget b p.1 ≤ cget c p.1 := h2le (p.1, cget b p.1) (cget_mem hkb)
        omega
      · have s1 : p.2 ≤ cget b p.1 := h1le p hp
        rw [cget_eq_zero_of_not_mem hkb] at s1
        omega
    · rcases h2st with ⟨q, hq, hqlt⟩ | ⟨q, hq, hqk, hqpos⟩
      · have hqv : cget b q.1 = q.2 := cget_of_mem_nodup hb hq
        by_cases hka : q.1 ∈ keysOf a
        · left
          refine ⟨(q.1, cget a q.1), cget_mem hka, ?_⟩
          have s1 : cget a q.1 ≤ cget b q.1 := h1le (q.1, cget a q.1) (cget_mem hka)
          show cget a q.1 < cget c q.1
          omega
        · right
          have hpos : 0 < cget c q.1 := by omega
          exact ⟨(q.1, cget c q.1), cget_mem (mem_keysOf_of_cget_pos hpos), hka, hpos⟩
      · have hqv : cget c q.1 = q.2 := cget_of_mem_nodup hc hq
        by_cases hka : q.1 ∈ keysOf a
        · left
          refine ⟨(q.1, cget a q.1), cget_mem hka, ?_⟩
          have s1 : cget a q.1 ≤ cget b q.1 := h1le (q.1, cget a q.1) (cget_mem hka)
          rw [cget_eq_zero_of_not_mem hqk] at s1
          show cget a q.1 < cget c q.1
          omega
        · right
          exact ⟨q, hq, hka, hqpos⟩
  · intro h1
    rw [Bool.eq_false_iff]
    intro hba
    rw [happenedBefore_iff] at h1 hba
    obtain ⟨h1le, h1st⟩ := h1
    obtain ⟨h2le, _⟩ := hba
    rcases h1st with ⟨q, hq, hlt⟩ | ⟨q, hq, hk, hpos⟩
    · have hqv : cget a q.1 = q.2 := cget_of_mem_nodup ha hq
      have hbmem : q.1 ∈ keysOf b := mem_keysOf_of_cget_pos (by omega)
      have s2 : cget b q.1 ≤ cget a q.1 := h2le (q.1, cget b q.1) (cget_mem hbmem)
      omega
    · have s2 : q.2 ≤ cget a q.1 := h2le q hq
      rw [cget_eq_zero_of_not_mem hk] at s2
      omega

/-- Witness for C7 at concrete clocks x:1, x:2, x:3. -/
theorem c7_witness :
    happenedBefore [("x", 1)] [("x", 3)] = true ∧
    happenedBefore [("x", 2)] [("x", 1)] = false := by
  have h := c7_happened_before_strict_order [("x", 1)] [("x", 2)] [("x", 3)]
    (by decide) (by decide) (by decide)
  exact ⟨h.1 (by decide) (by decide), h.2 (by decide)⟩

/-- Claim C8: merge maximality of `update` — for a node present in both
clocks the merged counter dominates both prior values, the local counter
advances by at least one, and no node id from the remote clock is ever
added to the local clock. -/
theorem c8_update_maximality (L M : Clock) (nid k : String) :
    (k ∈ keysOf L → k ∈ keysOf M →
      max (cget L k) (cget M k) ≤ cget (updateC L nid M) k) ∧
    (nid ∈ keysOf L → cget L nid + 1 ≤ cget (updateC L nid M) nid) ∧
    keysOf (updateC L nid M) = keysOf L := by
  refine ⟨fun hL _ => ?_, fun hn => ?_, keysOf_updateC L nid M⟩
  · rw [cget_updateC_of_mem hL]
    by_cases h : k = nid
    · rw [if_pos h]; omega
    · rw [if_neg h]
  · rw [cget_updateC_of_mem hn, if_pos rfl]
    omega

/-- Witness for C8 at concrete clocks. -/
theorem c8_witness :
    max (cget [("a", 1), ("b", 5)] "b") (cget [("b", 7), ("c", 9)] "b") ≤
      cget (updateC [("a", 1), ("b", 5)] "a" [("b", 7), ("c", 9)]) "b" ∧
    cget [("a", 1), ("b", 5)] "a" + 1 ≤
      cget (updateC [("a", 1), ("b", 5)] "a" [("b", 7), ("c", 9)]) "a" ∧
    keysOf (updateC [("a", 1), ("b", 5)] "a" [("b", 7), ("c", 9)]) =
      keysOf [("a", 1), ("b", 5)] := by
  have h := c8_update_maximality [("a", 1), ("b", 5)] [("b", 7), ("c", 9)] "a" "b"
  exact ⟨h.1 (by decide) (by decide), h.2.1 (by decide), h.2.2⟩

theorem cget_le_stepClock (nid : String) (c : Clock) (op : ClockOp) (k : String) :
    cget c k ≤ cget (stepClock nid c op) k := by
  cases op with
  | tick => exact cget_le_tickC c nid k
  | updateWith m => exact cget_le_updateC c nid m k
  | addNode i => exact cget_le_addNodeC c i k
  | tickSnapshot => exact cget_le_tickC c nid k
  | snapshot => exact Nat.le_refl _

/-- Claim C9: clock monotonicity — across any sequence of clock
operations, no per-node counter ever decreases. -/
theorem c9_clock_monotonic (nid : String) (c : Clock) (ops : List ClockOp)
    (k : String) : cget c k ≤ cget (runClockOps nid c ops) k := by
  induction ops generalizing c with
  | nil => exact Nat.le_refl _
  | cons op rest ih =>
    exact Nat.le_trans (cget_le_stepClock nid c op k) (ih (stepClock nid c op))

theorem charToNat_inj {a b : Char} (h : a.toNat = b.toNat) : a = b := by
  apply Char.ext
  apply UInt32.ext
  simpa [Char.toNat] using h

theorem strCmpL_cons (a b : Char) (as bs : List Char) :
    strCmpL (a :: as) (b :: bs) =
      match compare a.toNat b.toNat with
      | Ordering.eq => strCmpL as bs
      | o => o := rfl

theorem strCmpL_eq_iff (x y : List Char) : strCmpL x y = Ordering.eq ↔ x = y := by
  induction x generalizing y with
  | nil => cases y <;> simp [strCmpL]
  | cons a as ih =>
    cases y with
    | nil => simp [strCmpL]
    | cons b bs =>
      rw [strCmpL_cons]
      cases hab : compare a.toNat b.toNat with
      | lt =>
        have : a.toNat < b.toNat := Nat.compare_eq_lt.mp hab
        simp only []
        constructor
        · intro h; exact absurd h (by simp)
        · intro h
          rw [List.cons_eq_cons] at h
          rw [h.1] at this
          omega
      | eq =>
        have hb : a = b := charToNat_inj (Nat.compare_eq_eq.mp hab)
        simp only []
        rw [ih, List.cons_eq_cons]
        exact ⟨fun h => ⟨hb, h⟩, fun h => h.2⟩
      | gt =>
        have : b.toNat < a.toNat := Nat.compare_eq_gt.mp hab
        simp only []
        constructor
        · intro h; exact absurd h (by simp)
        · intro h
          rw [List.cons_eq_cons] at h
          rw [h.1] at this
          omega

theorem strCmpL_swap (x y : List Char) : (strCmpL x y).swap = strCmpL y x := by
  induction x generalizing y with
  | nil => cases y <;> simp [strCmpL, Ordering.swap]
  | cons a as ih =>
    cases y with
    | nil => simp [strCmpL, Ordering.swap]
    | cons b bs =>
      rw [strCmpL_cons, strCmpL_cons]
      cases hab : compare a.toNat b.toNat with
      | lt =>
        have h1 : a.toNat < b.toNat := Nat.compare_eq_lt.mp hab
        rw [Nat.compare_eq_gt.mpr h1]
        rfl
      | eq =>
        have h1 : a.toNat = b.toNat := Nat.compare_eq_eq.mp hab
        rw [Nat.compare_eq_eq.mpr h1.symm]
        exact ih bs
      | gt =>
        have h1 : b.toNat < a.toNat := Nat.compare_eq_gt.mp hab
        rw [Nat.compare_eq_lt.mpr h1]
        rfl

theorem strCmpL_trans {x y z : List Char} (h1 : strCmpL x y = Ordering.lt)
    (h2 : strCmpL y z = Ordering.lt) : strCmpL x z = Ordering.lt := by
  induction x generalizing y z with
  | nil =>
    cases y with
    | nil => exact absurd h1 (by simp [strCmpL])
    | cons b bs =>
      cases z with
      | nil => exact absurd h2 (by simp [strCmpL])
      | cons c cs => simp [strCmpL]
  | cons a as ih =>
    cases y with
    | nil => exact absurd h1 (by simp [strCmpL])
    | cons b bs =>
      cases z with
      | nil => exact absurd h2 (by simp [strCmpL])
      | cons c cs =>
        rw [strCmpL_cons] at h1 h2 ⊢
        cases hab : compare a.toNat b.toNat with
        | lt =>
          have hab' : a.toNat < b.toNat := Nat.compare_eq_lt.mp hab
          cases hbc : compare b.toNat c.toNat with
          | lt =>
            have hbc' : b.toNat < c.toNat := Nat.compare_eq_lt.mp hbc
            rw [Nat.compare_eq_lt.mpr (by omega)]
          | eq =>
            have hbc' : b.toNat = c.toNat := Nat.compare_eq_eq.mp hbc
            rw [Nat.compare_eq_lt.mpr (by omega)]
          | gt => rw [hbc] at h2; exact absurd h2 (by simp)
        | eq =>
          have hab' : a.toNat = b.toNat := Nat.compare_eq_eq.mp hab
          rw [hab] at h1
          cases hbc : compare b.toNat c.toNat with
          | lt =>
            have hbc' : b.toNat < c.toNat := Nat.compare_eq_lt.mp hbc
            rw [Nat.compare_eq_lt.mpr (by omega)]
          | eq =>
            have hbc' : b.toNat = c.toNat := Nat.compare_eq_eq.mp hbc
            rw [hbc] at h2
            rw [Nat.compare_eq_eq.mpr (by omega)]
            exact ih h1 h2
          | gt => rw [hbc] at h2; exact absurd h2 (by simp)
        | gt => rw [hab] at h1; exact absurd h1 (by simp)

theorem strCmp_eq_iff (s t : String) : strCmp s t = Ordering.eq ↔ s = t := by
  unfold strCmp
  rw [strCmpL_eq_iff]
  exact ⟨fun h => String.ext h, fun h => by rw [h]⟩

theorem evCmp_def {T : Type} (a b : Event T) :
    evCmp a b =
      match compare (totalOrderValue a) (totalOrderValue b) with
      | Ordering.eq =>
        match compare (originTimestamp a) (originTimestamp b) with
        | Ordering.eq => strCmp a.origin_node b.origin_node
        | o => o
      | o => o := rfl

/-- Claim C6 (amended): the comparison on events is the lexicographic
order on the triple (saturating clock weight, origin timestamp, origin
node): it compares Equal exactly when the triples agree, it is symmetric
under swapping and transitive, and two events with identical clock and
origin node compare Equal — but Equal does not conversely force identical
clocks (see the counterexample). -/
theorem c6_total_order_amended {T : Type} (a b c : Event T) :
    (evCmp a b = Ordering.eq ↔
      (totalOrderValue a = totalOrderValue b ∧
       originTimestamp a = originTimestamp b ∧
       a.origin_node = b.origin_node)) ∧
    ((evCmp a b).swap = evCmp b a) ∧
    (evCmp a b = Ordering.lt → evCmp b c = Ordering.lt →
      evCmp a c = Ordering.lt) ∧
    (a.clock = b.clock → a.origin_node = b.origin_node →
      evCmp a b = Ordering.eq) := by
  refine ⟨?_, ?_, ?_, ?_⟩
  · rw [evCmp_def]
    cases h1 : compare (totalOrderValue a) (totalOrderValue b) with
    | lt =>
      have := Nat.compare_eq_lt.mp h1
      simp only []
      constructor
      · intro h; exact absurd h (by simp)
      · intro h; omega
    | eq =>
      have ht : totalOrderValue a = totalOrderValue b := Nat.compare_eq_eq.mp h1
      cases h2 : compare (originTimestamp a) (originTimestamp b) with
      | lt =>
        have := Nat.compare_eq_lt.mp h2
        simp only []
        constructor
        · intro h; exact absurd h (by simp)
        · intro h; omega
      | eq =>
        have hs : originTimestamp a = originTimestamp b := Nat.compare_eq_eq.mp h2
        simp only []
        rw [strCmp_eq_iff]
        exact ⟨fun h => ⟨ht, hs, h⟩, fun h => h.2.2⟩
      | gt =>
        have := Nat.compare_eq_gt.mp h2
        simp only []
        constructor
        · intro h; exact absurd h (by simp)
        · intro h; omega
    | gt =>
      have := Nat.compare_eq_gt.mp h1
      simp only []
      constructor
      · intro h; exact absurd h (by simp)
      · intro h; omega
  · rw [evCmp_def, evCmp_def]
    cases h1 : compare (totalOrderValue a) (totalOrderValue b) with
    | lt =>
      have h1' := Nat.compare_eq_lt.mp h1
      rw [Nat.compare_eq_gt.mpr h1']
      rfl
    | eq =>
      have h1' := Nat.compare_eq_eq.mp h1
      rw [Nat.compare_eq_eq.mpr h1'.symm]
      cases h2 : compare (originTimestamp a) (originTimestamp b) with
      | lt =>
        have h2' := Nat.compare_eq_lt.mp h2
        rw [Nat.compare_eq_gt.mpr h2']
        rfl
      | eq =>
        have h2' := Nat.compare_eq_eq.mp h2
        rw [Nat.compare_eq_eq.mpr h2'.symm]
        exact strCmpL_swap _ _
      | gt =>
        have h2' := Nat.compare_eq_gt.mp h2
        rw [Nat.compare_eq_lt.mpr h2']
        rfl
    | gt =>
      have h1' := Nat.compare_eq_gt.mp h1
      rw [Nat.compare_eq_lt.mpr h1']
      rfl
  · intro hab hbc
    rw [evCmp_def] at hab hbc ⊢
    cases h1 : compare (totalOrderValue a) (totalOrderValue b) with
    | lt =>
      have h1' := Nat.compare_eq_lt.mp h1
      cases h2 : compare (totalOrderValue b) (totalOrderValue c) with
      | lt =>
        have h2' := Nat.compare_eq_lt.mp h2
        rw [Nat.compare_eq_lt.mpr (by omega)]
      | eq =>
        have h2' := Nat.compare_eq_eq.mp h2
        rw [Nat.compare_eq_lt.mpr (by omega)]
      | gt => rw [h2] at hbc; exact absurd hbc (by simp)
    | eq =>
      have h1' := Nat.compare_eq_eq.mp h1
      rw [h1] at hab
      cases h2 : compare (totalOrderValue b) (totalOrderValue c) with
      | lt =>
        have h2' := Nat.compare_eq_lt.mp h2
        rw [Nat.compare_eq_lt.mpr (by omega)]
      | eq =>
        have h2' := Nat.compare_eq_eq.mp h2
        rw [h2] at hbc
        rw [Nat.compare_eq_eq.mpr (by omega)]
        cases h3 : compare (originTimestamp a) (originTimestamp b) with
        | lt =>
          have h3' := Nat.compare_eq_lt.mp h3
          cases h4 : compare (originTimestamp b) (originTimestamp c) with
          | lt =>
            have h4' := Nat.compare_eq_lt.mp h4
            rw [Nat.compare_eq_lt.mpr (by omega)]
          | eq =>
            have h4' := Nat.compare_eq_eq.mp h4
            rw [Nat.compare_eq_lt.mpr (by omega)]
          | gt => rw [h4] at hbc; exact absurd hbc (by simp)
        | eq =>
          have h3' := Nat.compare_eq_eq.mp h3
          rw [h3] at hab
          cases h4 : compare (originTimestamp b) (originTimestamp c) with
          | lt =>
            have h4' := Nat.compare_eq_lt.mp h4
            rw [Nat.compare_eq_lt.mpr (by omega)]
          | eq =>
            have h4' := Nat.compare_eq_eq.mp h4
            rw [h4] at hbc
            rw [Nat.compare_eq_eq.mpr (by omega)]
            exact strCmpL_trans hab hbc
          | gt => rw [h4] at hbc; exact absurd hbc (by simp)
        | gt => rw [h3] at hab; exact absurd hab (by simp)
      | gt => rw [h2] at hbc; exact absurd hbc (by simp)
    | gt => rw [h1] at hab; exact absurd hab (by simp)
  · intro hclk horg
    rw [evCmp_def]
    have ht : totalOrderValue a = totalOrderValue b := by
      unfold totalOrderValue
      rw [hclk]
    have hs : originTimestamp a = originTimestamp b := by
      unfold originTimestamp
      rw [hclk, horg]
    rw [Nat.compare_eq_eq.mpr ht, Nat.compare_eq_eq.mpr hs]
    exact (strCmp_eq_iff _ _).mpr horg

/-- Witness for C6's amended order properties at concrete events. -/
theorem c6_witness :
    evCmp (⟨1, "a", EventOp.Enqueue, some 0, [("a", 1)]⟩ : Event Nat)
        ⟨3, "a", EventOp.Enqueue, some 0, [("a", 3)]⟩ = Ordering.lt ∧
    evCmp (⟨4, "a", EventOp.Enqueue, some 0, [("a", 1)]⟩ : Event Nat)
        ⟨5, "a", EventOp.Enqueue, some 1, [("a", 1)]⟩ = Ordering.eq := by
  constructor
  · exact (c6_total_order_amended
      (⟨1, "a", EventOp.Enqueue, some 0, [("a", 1)]⟩ : Event Nat)
      ⟨2, "a", EventOp.Enqueue, some 0, [("a", 2)]⟩
      ⟨3, "a", EventOp.Enqueue, some 0, [("a", 3)]⟩).2.2.1
      (by decide) (by decide)
  · exact (c6_total_order_amended
      (⟨4, "a", EventOp.Enqueue, some 0, [("a", 1)]⟩ : Event Nat)
      ⟨5, "a", EventOp.Enqueue, some 1, [("a", 1)]⟩
      ⟨5, "a", EventOp.Enqueue, some 1, [("a", 1)]⟩).2.2.2 rfl rfl

theorem stuck_canApply_false {T : Type} {s : DQS T} (hstuck : BufStuck s)
    (m : Clock) {e : Event T} (he : e ∈ s.buffer) :
    canApplyEvent (updateC s.clock s.node_id m) e = false := by
  unfold canApplyEvent
  rw [beq_eq_false_iff_ne]
  rcases hstuck e he with ⟨hk, hle⟩ | ⟨hk, hne⟩
  · have h1 : cget s.clock e.origin_node ≤
        cget (updateC s.clock s.node_id m) e.origin_node :=
      cget_le_updateC s.clock s.node_id m e.origin_node
    omega
  · have hk' : e.origin_node ∉ keysOf (updateC s.clock s.node_id m) := by
      rw [keysOf_updateC]; exact hk
    rw [cget_eq_zero_of_not_mem hk']
    omega

theorem applyImm_buffer {T : Type} (g : Globals) (s : DQS T) (e : Event T) :
    (applyEventImmediately g s e).1.buffer = s.buffer := by
  unfold applyEventImmediately
  cases e.op with
  | Enqueue => cases e.item <;> rfl
  | Dequeue => rfl

theorem applyImm_clock {T : Type} (g : Globals) (s : DQS T) (e : Event T) :
    (applyEventImmediately g s e).1.clock = s.clock := by
  unfold applyEventImmediately
  cases e.op with
  | Enqueue => cases e.item <;> rfl
  | Dequeue => rfl

theorem applyImm_enq {T : Type} (g : Globals) (s : DQS T) (e : Event T) (it : T)
    (hop : e.op = EventOp.Enqueue) (hit : e.item = some it) :
    applyEventImmediately g s e =
      ({ s with
          applied := (e.origin_node, e.global_id) :: s.applied
          queue := s.queue ++ [it]
          log := s.log ++ [⟨g.logCtr, s.node_id, "enqueue", some it,
            EntryState.Committed, e.clock, some e.global_id, some e⟩] },
       ⟨g.eventCtr, g.logCtr + 1⟩) := by
  unfold applyEventImmediately
  rw [hop, hit]

theorem applyImm_deq {T : Type} (g : Globals) (s : DQS T) (e : Event T)
    (hop : e.op = EventOp.Dequeue) :
    applyEventImmediately g s e =
      ({ s with
          applied := (e.origin_node, e.global_id) :: s.applied
          queue := s.queue.tail
          log := s.log ++ [⟨g.logCtr, s.node_id, "dequeue", s.queue.head?,
            EntryState.Delivered, e.clock, some e.global_id, some e⟩] },
       ⟨g.eventCtr, g.logCtr + 1⟩) := by
  unfold applyEventImmediately
  rw [hop]

theorem processBuffered_noop {T : Type} (g : Globals) (s : DQS T)
    (h : ∀ e ∈ s.buffer, canApplyEvent s.clock e = false) :
    processBufferedEvents g s = (s, g) := by
  unfold processBufferedEvents
  have h1 : s.buffer.filter (fun e => canApplyEvent s.clock e) = [] := by
    rw [List.filter_eq_nil_iff]
    intro e he
    rw [h e he]
    exact Bool.false_ne_true
  have h2 : s.buffer.filter (fun e => !(canApplyEvent s.clock e)) = s.buffer := by
    rw [List.filter_eq_self]
    intro e he
    rw [h e he]
    rfl
  rw [h1, h2]
  rfl

theorem applyRemote_dup {T : Type} (g : Globals) (s : DQS T) (e : Event T)
    (hdup : (e.origin_node, e.global_id) ∈ s.applied) :
    applyRemoteEvent g s e =
      (false, { s with clock := updateC s.clock s.node_id e.clock }, g) := by
  unfold applyRemoteEvent
  rw [if_pos hdup]

theorem applyRemote_buffered {T : Type} (g : Globals) (s : DQS T) (e : Event T)
    (hdup : (e.origin_node, e.global_id) ∉ s.applied)
    (hgate : canApplyEvent (updateC s.clock s.node_id e.clock) e = false) :
    applyRemoteEvent g s e =
      (false, { s with
          clock := updateC s.clock s.node_id e.clock
          buffer := s.buffer ++ [e] }, g) := by
  unfold applyRemoteEvent
  rw [if_neg hdup]
  have hg : ¬(canApplyEvent (updateC s.clock s.node_id e.clock) e = true) := by
    rw [hgate]
    exact Bool.false_ne_true
  rw [if_neg hg]

theorem applyRemote_accept_raw {T : Type} (g : Globals) (s : DQS T) (e : Event T)
    (hdup : (e.origin_node, e.global_id) ∉ s.applied)
    (hgate : canApplyEvent (updateC s.clock s.node_id e.clock) e = true) :
    applyRemoteEvent g s e =
      (true,
       (processBufferedEvents
         (applyEventImmediately g
           { s with clock := updateC s.clock s.node_id e.clock } e).2
         (applyEventImmediately g
           { s with clock := updateC s.clock s.node_id e.clock } e).1).1,
       (processBufferedEvents
         (applyEventImmediately g
           { s with clock := updateC s.clock s.node_id e.clock } e).2
         (applyEventImmediately g
           { s with clock := updateC s.clock s.node_id e.clock } e).1).2) := by
  unfold applyRemoteEvent
  rw [if_neg hdup, if_pos hgate]

theorem applyRemote_accept {T : Type} (g : Globals) (s : DQS T) (e : Event T)
    (hdup : (e.origin_node, e.global_id) ∉ s.applied)
    (hgate : canApplyEvent (updateC s.clock s.node_id e.clock) e = true)
    (hstuck : BufStuck s) :
    applyRemoteEvent g s e =
      (true,
       (applyEventImmediately g
         { s with clock := updateC s.clock s.node_id e.clock } e).1,
       (applyEventImmediately g
         { s with clock := updateC s.clock s.node_id e.clock } e).2) := by
  rw [applyRemote_accept_raw g s e hdup hgate]
  have hnone : ∀ x ∈ (applyEventImmediately g
      { s with clock := updateC s.clock s.node_id e.clock } e).1.buffer,
      canApplyEvent (applyEventImmediately g
        { s with clock := updateC s.clock s.node_id e.clock } e).1.clock x = false := by
    rw [applyImm_buffer, applyImm_clock]
    intro x hx
    exact stuck_canApply_false hstuck e.clock hx
  rw [processBuffered_noop _ _ hnone]

/-- Claim C3 (amended): re-applying an already-applied event returns false
and leaves the queue and log unchanged — but not the clock: the merge runs
before the duplicate check, so the local counter still advances by at
least one. -/
theorem c3_amended_idempotent {T : Type} (g : Globals) (s : DQS T) (e : Event T)
    (hdup : (e.origin_node, e.global_id) ∈ s.applied)
    (hn : s.node_id ∈ keysOf s.clock) :
    (applyRemoteEvent g s e).1 = false ∧
    (applyRemoteEvent g s e).2.1.queue = s.queue ∧
    (applyRemoteEvent g s e).2.1.log = s.log ∧
    cget s.clock s.node_id + 1 ≤
      cget (applyRemoteEvent g s e).2.1.clock s.node_id := by
  rw [applyRemote_dup g s e hdup]
  refine ⟨rfl, rfl, rfl, ?_⟩
  show cget s.clock s.node_id + 1 ≤
    cget (updateC s.clock s.node_id e.clock) s.node_id
  rw [cget_updateC_of_mem hn, if_pos rfl]
  omega

/-- Witness for C3's amended statement at the duplicate-application
scenario of the repository's own test. -/
theorem c3_amended_witness :
    (applyRemoteEvent c3a1.2.2 c3a1.2.1 c3e).1 = false ∧
    (applyRemoteEvent c3a1.2.2 c3a1.2.1 c3e).2.1.queue = c3a1.2.1.queue ∧
    (applyRemoteEvent c3a1.2.2 c3a1.2.1 c3e).2.1.log = c3a1.2.1.log ∧
    cget c3a1.2.1.clock c3a1.2.1.node_id + 1 ≤
      cget (applyRemoteEvent c3a1.2.2 c3a1.2.1 c3e).2.1.clock
        c3a1.2.1.node_id :=
  c3_amended_idempotent c3a1.2.2 c3a1.2.1 c3e (by decide) (by decide)

/-- Claim C4 (amended): enqueue ticks-and-snapshots the clock, synthesizes
the Enqueue event carrying the snapshot and the item, pushes the item onto
the queue, appends a Committed "enqueue" log entry, and returns the event
for broadcast — but it does not touch the applied-set (and leaves the
buffer alone, bumping both process counters). -/
theorem c4_enqueue_amended {T : Type} (g : Globals) (s : DQS T) (it : T) :
    (enqueueOp g s it).1 =
      ⟨g.eventCtr, s.node_id, EventOp.Enqueue, some it, tickC s.clock s.node_id⟩ ∧
    (enqueueOp g s it).2.1.queue = s.queue ++ [it] ∧
    (enqueueOp g s it).2.1.log = s.log ++
      [⟨g.logCtr, s.node_id, "enqueue", some it, EntryState.Committed,
        tickC s.clock s.node_id, some g.eventCtr,
        some ⟨g.eventCtr, s.node_id, EventOp.Enqueue, some it,
          tickC s.clock s.node_id⟩⟩] ∧
    (enqueueOp g s it).2.1.applied = s.applied ∧
    (enqueueOp g s it).2.1.clock = tickC s.clock s.node_id ∧
    (enqueueOp g s it).2.1.buffer = s.buffer ∧
    (enqueueOp g s it).2.2 = ⟨g.eventCtr + 1, g.logCtr + 1⟩ :=
  ⟨rfl, rfl, rfl, rfl, rfl, rfl, rfl⟩

/-- Claim C10: an admissible, non-duplicate remote Dequeue event pops the
head of the local queue (its tail remains) and logs the locally popped
item — `s.queue.head?`, not the item carried by the event — with state
Delivered; on an empty queue the logged item is `none`. -/
theorem c10_remote_dequeue_ignores_item {T : Type} (g : Globals) (s : DQS T)
    (e : Event T)
    (hop : e.op = EventOp.Dequeue)
    (hdup : (e.origin_node, e.global_id) ∉ s.applied)
    (hgate : canApplyEvent (updateC s.clock s.node_id e.clock) e = true)
    (hstuck : BufStuck s) :
    (applyRemoteEvent g s e).1 = true ∧
    (applyRemoteEvent g s e).2.1.queue = s.queue.tail ∧
    (applyRemoteEvent g s e).2.1.log =
      s.log ++ [⟨g.logCtr, s.node_id, "dequeue", s.queue.head?,
        EntryState.Delivered, e.clock, some e.global_id, some e⟩] := by
  rw [applyRemote_accept g s e hdup hgate hstuck]
  rw [applyImm_deq _ _ _ hop]
  exact ⟨rfl, rfl, rfl⟩

/-- Witness for C10: the event carries item "x" but the engine's queue is
empty, so the apply succeeds and logs item `none` — different from the
event's item. -/
theorem c10_witness :
    (applyRemoteEvent c10g c10s c10e).1 = true ∧
    (applyRemoteEvent c10g c10s c10e).2.1.queue = c10s.queue.tail ∧
    (applyRemoteEvent c10g c10s c10e).2.1.log =
      c10s.log ++ [⟨c10g.logCtr, c10s.node_id, "dequeue", c10s.queue.head?,
        EntryState.Delivered, c10e.clock, some c10e.global_id, some c10e⟩] ∧
    c10s.queue.head? = none ∧ c10e.item = some "x" := by
  have h := c10_remote_dequeue_ignores_item c10g c10s c10e
    (by decide) (by decide) (by decide)
    (fun x hx => absurd hx (List.not_mem_nil x))
  exact ⟨h.1, h.2.1, h.2.2, rfl, rfl⟩

theorem pairwise_ids_append {T : Type} (l : List (LogEntry T)) (en : LogEntry T)
    (g : Nat)
    (hbound : ∀ x ∈ l, x.local_log_id < g)
    (hinc : (l.map (fun x => x.local_log_id)).Pairwise (· < ·))
    (hen : en.local_log_id = g) :
    ((l ++ [en]).map (fun x => x.local_log_id)).Pairwise (· < ·) := by
  rw [List.map_append, List.pairwise_append]
  refine ⟨hinc, List.pairwise_singleton _ _, ?_⟩
  intro a ha b hb
  rw [List.mem_map] at ha
  obtain ⟨x, hx, hxa⟩ := ha
  rw [List.map_singleton, List.mem_singleton] at hb
  rw [hb, hen, ← hxa]
  exact hbound x hx

/-- Claim C5: every local enqueue or dequeue appends exactly one log
entry; a remote apply appends exactly one entry when it returns true and
none when it returns false; the log only ever grows by appending (no entry
is removed); and the `local_log_id`s, drawn from the process-wide counter,
remain strictly increasing in append order. -/
theorem c5_log_append_only {T : Type} (g : Globals) (s : DQS T) (it : T)
    (e : Event T)
    (hstuck : BufStuck s)
    (hwf : e.op = EventOp.Enqueue → e.item ≠ none)
    (hbound : ∀ en ∈ s.log, en.local_log_id < g.logCtr)
    (hinc : (s.log.map (fun en => en.local_log_id)).Pairwise (· < ·)) :
    ((enqueueOp g s it).2.1.log.length = s.log.length + 1 ∧
     (∃ tl, (enqueueOp g s it).2.1.log = s.log ++ tl) ∧
     ((enqueueOp g s it).2.1.log.map
        (fun en => en.local_log_id)).Pairwise (· < ·)) ∧
    ((dequeueOp g s).2.1.log.length = s.log.length + 1 ∧
     (∃ tl, (dequeueOp g s).2.1.log = s.log ++ tl) ∧
     ((dequeueOp g s).2.1.log.map
        (fun en => en.local_log_id)).Pairwise (· < ·)) ∧
    (((applyRemoteEvent g s e).1 = true →
        (applyRemoteEvent g s e).2.1.log.length = s.log.length + 1) ∧
     ((applyRemoteEvent g s e).1 = false →
        (applyRemoteEvent g s e).2.1.log = s.log) ∧
     (∃ tl, (applyRemoteEvent g s e).2.1.log = s.log ++ tl) ∧
     ((applyRemoteEvent g s e).2.1.log.map
        (fun en => en.local_log_id)).Pairwise (· < ·)) := by
  refine ⟨⟨?_, ⟨_, rfl⟩, ?_⟩, ⟨?_, ⟨_, rfl⟩, ?_⟩, ?_⟩
  · show (s.log ++ [_]).length = s.log.length + 1
    rw [List.length_append]
    rfl
  · exact pairwise_ids_append s.log _ g.logCtr hbound hinc rfl
  · show (s.log ++ [_]).length = s.log.length + 1
    rw [List.length_append]
    rfl
  · exact pairwise_ids_append s.log _ g.logCtr hbound hinc rfl
  · by_cases hdup : (e.origin_node, e.global_id) ∈ s.applied
    · rw [applyRemote_dup g s e hdup]
      exact ⟨fun h => absurd h (by simp), fun _ => rfl,
        ⟨[], (List.append_nil _).symm⟩, hinc⟩
    · by_cases hgate : canApplyEvent (updateC s.clock s.node_id e.clock) e = true
      · rw [applyRemote_accept g s e hdup hgate hstuck]
        cases hop : e.op with
        | Enqueue =>
          cases hit : e.item with
          | none => exact absurd hit (hwf hop)
          | some x =>
            rw [applyImm_enq g _ e x hop hit]
            refine ⟨fun _ => ?_, fun h => absurd h (by simp), ⟨_, rfl⟩, ?_⟩
            · show (s.log ++ [_]).length = s.log.length + 1
              rw [List.length_append]
              rfl
            · exact pairwise_ids_append s.log _ g.logCtr hbound hinc rfl
        | Dequeue =>
          rw [applyImm_deq g _ e hop]
          refine ⟨fun _ => ?_, fun h => absurd h (by simp), ⟨_, rfl⟩, ?_⟩
          · show (s.log ++ [_]).length = s.log.length + 1
            rw [List.length_append]
            rfl
          · exact pairwise_ids_append s.log _ g.logCtr hbound hinc rfl
      · rw [applyRemote_buffered g s e hdup (Bool.eq_false_iff.mpr hgate)]
        exact ⟨fun h => absurd h (by simp), fun _ => rfl,
          ⟨[], (List.append_nil _).symm⟩, hinc⟩

/-- Witness for C5 at a concrete engine holding one logged entry. -/
theorem c5_witness :
    (((enqueueOp c5base.2.2 c5base.2.1 "z").2.1.log.length =
        c5base.2.1.log.length + 1 ∧
      (∃ tl, (enqueueOp c5base.2.2 c5base.2.1 "z").2.1.log =
        c5base.2.1.log ++ tl) ∧
      ((enqueueOp c5base.2.2 c5base.2.1 "z").2.1.log.map
         (fun en => en.local_log_id)).Pairwise (· < ·)) ∧
     ((dequeueOp c5base.2.2 c5base.2.1).2.1.log.length =
        c5base.2.1.log.length + 1 ∧
      (∃ tl, (dequeueOp c5base.2.2 c5base.2.1).2.1.log =
        c5base.2.1.log ++ tl) ∧
      ((dequeueOp c5base.2.2 c5base.2.1).2.1.log.map
         (fun en => en.local_log_id)).Pairwise (· < ·)) ∧
     (((applyRemoteEvent c5base.2.2 c5base.2.1 c5e).1 = true →
         (applyRemoteEvent c5base.2.2 c5base.2.1 c5e).2.1.log.length =
           c5base.2.1.log.length + 1) ∧
      ((applyRemoteEvent c5base.2.2 c5base.2.1 c5e).1 = false →
         (applyRemoteEvent c5base.2.2 c5base.2.1 c5e).2.1.log =
           c5base.2.1.log) ∧
      (∃ tl, (applyRemoteEvent c5base.2.2 c5base.2.1 c5e).2.1.log =
        c5base.2.1.log ++ tl) ∧
      ((applyRemoteEvent c5base.2.2 c5base.2.1 c5e).2.1.log.map
         (fun en => en.local_log_id)).Pairwise (· < ·))) :=
  c5_log_append_only c5base.2.2 c5base.2.1 "z" c5e
    (fun x hx => absurd hx (List.not_mem_nil x))
    (by decide) (by decide) (by decide)
